import Mathlib

/-!
Verification development for the iDoklad blog article selector (`app.py`).

The Python source is shallowly embedded below: pure functions become Lean
functions, the JSON history file becomes an explicit `PersistedFile` state,
and the in-place list/dict operations of the selection routine are modelled
both as a pure pipeline (`select_articles_for_month`) and as a heap-passing
translation (`selectPy`) used to state frame conditions.
-/

namespace Agwbot

/-! ## Dates

Python `datetime.date` values: a (year, month, day) triple compared
lexicographically.  Arithmetic with `timedelta` is modelled through the
proleptic Gregorian civil-days conversion (`daysFromCivil` / `civilFromDays`),
which is extensionally the calendar used by `datetime.date.toordinal` /
`fromordinal`. -/

structure PyDate where
  year : Int
  month : Int
  day : Int
deriving DecidableEq

/-- Python `date` comparison `a < b`: lexicographic on (year, month, day). -/
def dateLtB (a b : PyDate) : Bool :=
  decide (a.year < b.year) ||
    (a.year == b.year &&
      (decide (a.month < b.month) ||
        (a.month == b.month && decide (a.day < b.day))))

/-! ## Articles

`fetch_blog_articles` returns tuples `(title, url, publish_date, summary)`;
we name the four positions. -/

structure Article where
  title : String
  url : String
  published : PyDate
  summary : String
deriving DecidableEq

/-! ## Lower-casing and substring search

`classify_article` computes `(title + " " + summary).lower()` and then runs
`re.search(rf"{kw}", text)` for each keyword.  No configured keyword contains
a regex metacharacter, so the search is plain substring occurrence.
`pyLowerChar` models Python's `str.lower` on the character repertoire that
occurs in the configured keywords and titles: ASCII letters plus the Czech
upper-case diacritics. -/

def pyLowerChar (c : Char) : Char :=
  if c = 'Á' then 'á' else if c = 'Č' then 'č' else if c = 'Ď' then 'ď'
  else if c = 'É' then 'é' else if c = 'Ě' then 'ě' else if c = 'Í' then 'í'
  else if c = 'Ň' then 'ň' else if c = 'Ó' then 'ó' else if c = 'Ř' then 'ř'
  else if c = 'Š' then 'š' else if c = 'Ť' then 'ť' else if c = 'Ú' then 'ú'
  else if c = 'Ů' then 'ů' else if c = 'Ý' then 'ý' else if c = 'Ž' then 'ž'
  else c.toLower

def pyLower (s : String) : String := ⟨s.data.map pyLowerChar⟩

/-- Does `needle` match at the head of `haystack`? -/
def matchesAt : List Char → List Char → Bool
  | [], _ => true
  | _ :: _, [] => false
  | a :: t, b :: u => a == b && matchesAt t u

/-- Does `needle` occur contiguously anywhere in the second list?
Models `re.search` for a metacharacter-free pattern. -/
def occursIn (needle : List Char) : List Char → Bool
  | [] => matchesAt needle []
  | c :: t => matchesAt needle (c :: t) || occursIn needle t

def kwMatches (kw text : String) : Bool := occursIn kw.data text.data

/-! ## Categories and keywords (source constants) -/

def CATEGORY_ORDER : List String :=
  ["ENGAGEMENT", "CONVERSION", "EDUCATIONAL", "SEASONAL"]

def CATEGORY_KEYWORDS : String → List String
  | "ENGAGEMENT" => ["tip", "trik", "příběh", "trend", "nej", "inspir"]
  | "CONVERSION" =>
      ["tarif", "funkc", "premium", "automat", "online platb", "API", "propojení"]
  | "EDUCATIONAL" => ["jak", "průvodce", "návod", "začínaj", "krok", "vysvětlen"]
  | "SEASONAL" =>
      ["daň", "DPH", "silvestr", "váno", "uzávěr", "přiznání", "leden", "únor",
       "březen", "duben", "květen", "červen", "červenec", "srpen", "září",
       "říjen", "listopad", "prosinec"]
  | _ => []

/-- The inner double loop of `classify_article`: first category (in the given
order) one of whose keywords occurs in `text`. -/
def firstMatchingCat (text : String) : List String → Option String
  | [] => none
  | cat :: rest =>
      if (CATEGORY_KEYWORDS cat).any (fun kw => kwMatches kw text) then some cat
      else firstMatchingCat text rest

/-- `classify_article(title, summary)` from `app.py`: lowercases
`title + " " + summary`, scans the categories in `CATEGORY_ORDER` and each
keyword list in order, returning the first category with an occurring
keyword, else `none`.  Note the keywords themselves are NOT lowercased. -/
def classify_article (title summary : String) : Option String :=
  firstMatchingCat (pyLower (title ++ " " ++ summary)) CATEGORY_ORDER

/-! ## History records -/

def MAX_ARTICLES : Nat := 4
def MONTHS_TO_SHOW : Nat := 3
def RSS_FEED_URL : String := "https://rss.app/feeds/2IEcDYoo7hF8d27H.xml"

/-- The in-memory history: a Python dict `{"YYYY-MM": [url, ...]}`, modelled
as an association list in insertion order (Python dicts preserve it). -/
abbrev HistoryRecord := List (String × List String)

/-- Python `dict.get`: value of the (unique) matching key, if present. -/
def lookupH : HistoryRecord → String → Option (List String)
  | [], _ => none
  | (k, v) :: t, key => if k == key then some v else lookupH t key

/-- `f"{year}-{month:02d}"`: the period key used both for filtering and for
recording history. -/
def pad2 (m : Int) : String :=
  if 0 ≤ m ∧ m < 10 then "0" ++ toString m else toString m

def periodKey (year month : Int) : String :=
  toString year ++ "-" ++ pad2 month

/-- `history.setdefault(key, []).extend(urls)` (lines 230-231): append `urls`
to the sequence at `key`, creating the key at the end if absent.  Python's
in-place mutation is rendered as the updated dict value. -/
def record_used : HistoryRecord → String → List String → HistoryRecord
  | [], key, urls => [(key, urls)]
  | (k, v) :: t, key, urls =>
      if k == key then (k, v ++ urls) :: t
      else (k, v) :: record_used t key urls

/-! ## Persistence

The history file is modelled by its parse status: `none` — `HISTORY_FILE`
does not exist; `some none` — the file exists but `json.loads` raises
`JSONDecodeError`; `some (some v)` — the file exists and parses to the JSON
value `v`.  `json.dumps`/`json.loads` of a string-keyed dict of string lists
round-trips through text, so `save_history` is modelled as storing the JSON
value of its argument. -/

inductive JValue where
  | jnull : JValue
  | jbool : Bool → JValue
  | jnum : Int → JValue
  | jstr : String → JValue
  | jarr : List JValue → JValue
  | jobj : List (String × JValue) → JValue

abbrev PersistedFile := Option (Option JValue)

/-- `load_history` (lines 73-79): returns `{}` when the file is missing or
`json.loads` fails; otherwise returns whatever JSON value was parsed
(the shape is not validated). -/
def load_history : PersistedFile → JValue
  | none => .jobj []
  | some none => .jobj []
  | some (some v) => v

/-- The JSON value `json.dumps` writes for an in-memory history dict. -/
def encodeHistory (h : HistoryRecord) : JValue :=
  .jobj (h.map (fun kv => (kv.1, .jarr (kv.2.map .jstr))))

/-- `save_history` (lines 82-83): overwrites the file with the JSON rendering
of `data`; after it, the file exists and parses back to that value. -/
def save_history (data : HistoryRecord) : PersistedFile :=
  some (some (encodeHistory data))

/-- Modelled from the spec: interpretation of a JSON value as a well-formed
history record ("a mapping from period keys to URL lists"); `none` when the
value does not have that shape.  `app.py` itself never validates the shape,
so this definition follows the spec's words and exists to compare the code's
behaviour against them (claims C5 and C9). -/
def decodeUrls : List JValue → Option (List String)
  | [] => some []
  | .jstr s :: t => (decodeUrls t).map (fun r => s :: r)
  | _ => none

def decodeFields : List (String × JValue) → Option HistoryRecord
  | [] => some []
  | (k, .jarr xs) :: t =>
      match decodeUrls xs, decodeFields t with
      | some us, some r => some ((k, us) :: r)
      | _, _ => none
  | _ => none

def decodeHistory : JValue → Option HistoryRecord
  | .jobj fs => decodeFields fs
  | _ => none

/-! ## Selection (`select_articles_for_month`, lines 133-157) -/

/-- The URLs already used for the period: `set(history.get(key, []))`.
Membership in the Python set coincides with membership in the list. -/
def usedFor (history : HistoryRecord) (year month : Int) : List String :=
  (lookupH history (periodKey year month)).getD []

/-- The pool filter of line 138: same year, same month, URL not used. -/
def monthFilter (year month : Int) (used : List String) (a : Article) : Bool :=
  a.published.year == year && a.published.month == month &&
    !(used.contains a.url)

def poolFor (articles : List Article) (history : HistoryRecord)
    (year month : Int) : List Article :=
  articles.filter (monthFilter year month (usedFor history year month))

/-- Stable insertion step for the descending-by-date sort. -/
def insertDesc (a : Article) : List Article → List Article
  | [] => [a]
  | b :: t =>
      if dateLtB a.published b.published then b :: insertDesc a t
      else a :: b :: t

/-- `pool.sort(key=lambda x: x[2], reverse=True)`: Python's stable sort,
descending by publish date; rendered as a stable insertion sort (stable
descending sorts agree as functions). -/
def sortDesc : List Article → List Article
  | [] => []
  | a :: t => insertDesc a (sortDesc t)

/-- The `selected` dict: category name to optional article, started as
`{c: None for c in CATEGORY_ORDER}`. -/
abbrev Slots := List (String × Option Article)

def initSlots : Slots := CATEGORY_ORDER.map (fun c => (c, none))

def lookupSlot : Slots → String → Option (Option Article)
  | [], _ => none
  | (k, v) :: t, c => if k == c then some v else lookupSlot t c

def setSlot : Slots → String → Article → Slots
  | [], _, _ => []
  | (k, v) :: t, c, a =>
      if k == c then (k, some a) :: t else (k, v) :: setSlot t c a

/-- The distribution loop of lines 144-149: each pool article either fills
its still-empty category slot (`cat in selected and selected[cat] is None`)
or is appended to `others`. -/
def distribute : List Article → Slots → List Article → Slots × List Article
  | [], sel, others => (sel, others)
  | a :: t, sel, others =>
      let cat := (classify_article a.title a.summary).getD "OTHER"
      match lookupSlot sel cat with
      | some none => distribute t (setSlot sel cat a) others
      | _ => distribute t sel (others ++ [a])

/-- Line 152: the filled slots, read back in `CATEGORY_ORDER`, `None`s
skipped. -/
def slotArts (sel : Slots) : List Article :=
  CATEGORY_ORDER.filterMap (fun c => (lookupSlot sel c).getD none)

/-- The fill loop of lines 153-156: append overflow articles until the final
list reaches `MAX_ARTICLES`. -/
def fillFinal : List Article → List Article → List Article
  | final, [] => final
  | final, a :: t =>
      if MAX_ARTICLES ≤ final.length then final
      else fillFinal (final ++ [a]) t

/-- `select_articles_for_month(articles, history, year, month)`:
filter to the month and unused URLs, sort descending by date, assign one
article per category, fill with overflow, truncate to `MAX_ARTICLES`. -/
def select_articles_for_month (articles : List Article)
    (history : HistoryRecord) (year month : Int) : List Article :=
  let pool := sortDesc (poolFor articles history year month)
  let so := distribute pool initSlots []
  (fillFinal (slotArts so.1) so.2).take MAX_ARTICLES

/-- Modelled from the spec: the spec's selection operation carries an
`ignore_history` flag ("Determine `used`: empty set if `ignore_history` is
true, else the set of URLs recorded in `history` for `period`'s key"), which
is absent from `src/app.py`; this is the pool computation with that flag. -/
def poolForFlag (articles : List Article) (history : HistoryRecord)
    (year month : Int) (ignoreHist : Bool) : List Article :=
  let used := cond ignoreHist [] (usedFor history year month)
  articles.filter (monthFilter year month used)

/-! ## Period enumeration (line 199)

`(date.today().replace(day=15) - timedelta(days=30*i)).replace(day=15)` for
`i in range(MONTHS_TO_SHOW)`, keeping `(year, month)` of each result.
`daysFromCivil`/`civilFromDays` are the standard proleptic-Gregorian civil
conversions (epoch 0000-03-01), extensionally the arithmetic of
`datetime.date` ± `timedelta`. -/

def daysFromCivil (y m d : Int) : Int :=
  let yy := if m ≤ 2 then y - 1 else y
  let era := (if 0 ≤ yy then yy else yy - 399) / 400
  let yoe := yy - era * 400
  let mp := if 2 < m then m - 3 else m + 9
  let doy := (153 * mp + 2) / 5 + d - 1
  let doe := yoe * 365 + yoe / 4 - yoe / 100 + doy
  era * 146097 + doe

def civilFromDays (z : Int) : Int × Int × Int :=
  let era := (if 0 ≤ z then z else z - 146096) / 146097
  let doe := z - era * 146097
  let yoe := (doe - doe / 1460 + doe / 36524 - doe / 146096) / 365
  let y := yoe + era * 400
  let doy := doe - (365 * yoe + yoe / 4 - yoe / 100)
  let mp := (5 * doy + 2) / 153
  let d := doy - (153 * mp + 2) / 5 + 1
  let m := if mp < 10 then mp + 3 else mp - 9
  (if m ≤ 2 then y + 1 else y, m, d)

/-- `months_opts` (lines 199-200) as a function of today's (year, month):
the day is anchored to 15 before subtracting `30*i` days. -/
def months_opts (y m : Int) : List (Int × Int) :=
  (List.range MONTHS_TO_SHOW).map (fun i =>
    let c := civilFromDays (daysFromCivil y m 15 - 30 * (i : Int))
    (c.1, c.2.1))

/-- One step back in the calendar: the previous (year, month). -/
def prevMonth : Int × Int → Int × Int
  | (y, m) => if m = 1 then (y - 1, 12) else (y, m - 1)

/-! ## Feed fetch request (lines 100-106)

`fetch_blog_articles` passes the constant `RSS_FEED_URL` to
`feedparser.parse`, and on a bozo feed to `requests.get`, with no
cache-defeating variation; the request URL of the `i`-th invocation is
therefore a constant function of `i`. -/

def fetchRequestUrl (invocation : Nat) : String :=
  match invocation with
  | _ => RSS_FEED_URL

/-! ## Auxiliary view of the slots used by the partition lemmas -/

/-- The articles currently held in the slots, in slot-list order. -/
def selVals (sel : Slots) : List Article := sel.filterMap Prod.snd

/-! ## Heap-passing translation of the selection

Python lists and the history dict are objects on a heap; variables hold
references.  `select_articles_for_month`'s only in-place operations
(`pool.sort()`, `others.append`, `final.append`) target lists freshly
allocated inside the function, so the argument objects are never written.
The translation below threads an explicit heap to state exactly that. -/

structure PyHeap where
  cells : Nat → Option (List Article)
  next : Nat
  hist : HistoryRecord

def halloc (h : PyHeap) (v : List Article) : Nat × PyHeap :=
  (h.next, ⟨fun i => if i = h.next then some v else h.cells i, h.next + 1, h.hist⟩)

def hread (h : PyHeap) (r : Nat) : List Article := (h.cells r).getD []

def hwrite (h : PyHeap) (r : Nat) (v : List Article) : PyHeap :=
  ⟨fun i => if i = r then some v else h.cells i, h.next, h.hist⟩

/-- The distribution loop with `others` as a heap object (`others.append(art)`
mutates it in place). -/
def distributePy : List Article → Slots → Nat → PyHeap → Slots × PyHeap
  | [], sel, _, h => (sel, h)
  | a :: t, sel, ro, h =>
      let cat := (classify_article a.title a.summary).getD "OTHER"
      match lookupSlot sel cat with
      | some none => distributePy t (setSlot sel cat a) ro h
      | _ => distributePy t sel ro (hwrite h ro (hread h ro ++ [a]))

/-- The fill loop with `final` as a heap object (`final.append(art)` mutates
it in place). -/
def fillPy : List Article → Nat → PyHeap → PyHeap
  | [], _, h => h
  | a :: t, rf, h =>
      if MAX_ARTICLES ≤ (hread h rf).length then h
      else fillPy t rf (hwrite h rf (hread h rf ++ [a]))

/-- `select_articles_for_month` as heap-threaded code: `articles` is the
object at reference `ra`, the history dict is `h0.hist`; `pool`, `others`
and `final` are freshly allocated, and `pool.sort()` rewrites only `pool`'s
own cell. -/
def selectPy (h0 : PyHeap) (ra : Nat) (year month : Int) : List Article × PyHeap :=
  let used := usedFor h0.hist year month
  let p1 := halloc h0 ((hread h0 ra).filter (monthFilter year month used))
  let rp := p1.1
  let h1 := p1.2
  let h2 := hwrite h1 rp (sortDesc (hread h1 rp))
  let p2 := halloc h2 []
  let ro := p2.1
  let h3 := p2.2
  let q := distributePy (hread h3 rp) initSlots ro h3
  let h4 := q.2
  let p3 := halloc h4 (slotArts q.1)
  let rf := p3.1
  let h5 := p3.2
  let h6 := fillPy (hread h5 ro) rf h5
  ((hread h6 rf).take MAX_ARTICLES, h6)

end Agwbot

namespace Agwbot

/-! ## Concrete articles of the spec's March-2024 scenario -/

def T1 : Article := ⟨"Jak na DPH", "u1", ⟨2024, 3, 5⟩, ""⟩
def T2 : Article := ⟨"Tip pro podnikatele", "u2", ⟨2024, 3, 10⟩, ""⟩
def T3 : Article := ⟨"Premium funkce", "u3", ⟨2024, 3, 2⟩, ""⟩
def T4 : Article := ⟨"Návod krok za krokem", "u4", ⟨2024, 3, 1⟩, ""⟩

def marchPool : List Article := [T1, T2, T3, T4]

/-- The history used in witnesses: `u1` already sent for March 2024. -/
def histMarch : HistoryRecord := [("2024-03", ["u1"])]

/-- A one-cell heap holding the March-2024 pool, used by the frame witness. -/
def heap0 : PyHeap := ⟨fun i => if i = 0 then some marchPool else none, 1, histMarch⟩

/-! ## Helper lemmas -/

theorem lookupH_record_used (h : HistoryRecord) (k : String) (us : List String) :
    lookupH (record_used h k us) k = some ((lookupH h k).getD [] ++ us) := by
  induction h with
  | nil => simp [record_used, lookupH]
  | cons kv t ih =>
      obtain ⟨k', v⟩ := kv
      by_cases hk : k' = k
      · simp [record_used, lookupH, hk]
      · simp [record_used, lookupH, hk, ih]

theorem decodeUrls_encode (us : List String) :
    decodeUrls (us.map JValue.jstr) = some us := by
  induction us with
  | nil => rfl
  | cons s t ih => simp [decodeUrls, ih]

theorem decodeHistory_encodeHistory (h : HistoryRecord) :
    decodeHistory (encodeHistory h) = some h := by
  induction h with
  | nil => rfl
  | cons kv t ih =>
      obtain ⟨k, v⟩ := kv
      simp only [decodeHistory, encodeHistory, List.map_cons, decodeFields,
        decodeUrls_encode] at ih ⊢
      rw [ih]

/-! ## Claims -/

/-- C1: with the spec-modelled `ignore_history` flag, the eligible pool with
the flag set is a superset of the pool without it, and every article excluded
from the flag-off pool solely because its URL is in the history for the
period becomes eligible when the flag is set; the flag-off pool is exactly
the pool `select_articles_for_month` computes. -/
theorem C1_ignore_history_superset :
    ∀ (articles : List Article) (history : HistoryRecord) (year month : Int)
      (a : Article),
      (a ∈ poolForFlag articles history year month false →
        a ∈ poolForFlag articles history year month true) ∧
      (a ∈ articles → a.published.year = year → a.published.month = month →
        a.url ∈ usedFor history year month →
        a ∉ poolForFlag articles history year month false ∧
          a ∈ poolForFlag articles history year month true) ∧
      poolForFlag articles history year month false =
        poolFor articles history year month := by
  intro articles history year month a
  refine ⟨?_, ?_, rfl⟩
  · intro hmem
    refine List.Sublist.mem hmem ?_
    refine List.monotone_filter_right articles ?_
    intro x hx
    simp only [monthFilter, Bool.and_eq_true] at hx ⊢
    refine ⟨hx.1, ?_⟩
    simp [List.contains]
  · intro hmem hy hm hused
    constructor
    · intro hin
      rw [poolForFlag, List.mem_filter] at hin
      have h2 := hin.2
      simp only [monthFilter, Bool.and_eq_true, Bool.not_eq_true',
        Bool.cond_false] at h2
      have helem : (usedFor history year month).elem a.url = true :=
        List.elem_eq_true_of_mem hused
      have hcont := h2.2
      simp only [List.contains] at hcont
      rw [helem] at hcont
      exact Bool.noConfusion hcont
    · rw [poolForFlag, List.mem_filter]
      refine ⟨hmem, ?_⟩
      simp [monthFilter, hy, hm, List.contains]

/-- C1 witness: `T1` (url `u1`) is excluded for March 2024 when the history
holds `u1`, and eligible when the flag ignores history. -/
theorem C1_witness :
    T1 ∉ poolForFlag marchPool histMarch 2024 3 false ∧
      T1 ∈ poolForFlag marchPool histMarch 2024 3 true :=
  (C1_ignore_history_superset marchPool histMarch 2024 3 T1).2.1
    (by decide) (by decide) (by decide) (by decide)

/-- C2: the keyword match is NOT case-insensitive — the text is lowercased
but keywords are not, so the upper-case keyword `"DPH"` (and `"API"`) can
never occur in the lowercased text: `classify_article "DPH" ""` is `none`,
not `some "SEASONAL"` as the claim requires.  The lowercase keywords behave
as claimed: `"daň"` classifies as SEASONAL, and a text with keywords of two
categories gets the earlier one. -/
theorem C2_dead_uppercase_keyword :
    classify_article "DPH" "" = none ∧
    classify_article "Daňové přiznání" "" = some "SEASONAL" ∧
    classify_article "Tip na premium" "" = some "ENGAGEMENT" ∧
    kwMatches "DPH" (pyLower "Jak na DPH") = false := by decide

/-- C3 counterexample: on the spec's March-2024 pool the selection does not
return `[u2, u3, u4, u1]`. -/
theorem C3_counterexample :
    (select_articles_for_month marchPool [] 2024 3).map Article.url ≠
      ["u2", "u3", "u4", "u1"] := by decide

/-- C3 amended: the selection returns `[u2, u3, u1, u4]` — `T1` ("Jak na
DPH") classifies as EDUCATIONAL via the keyword `"jak"` (EDUCATIONAL
precedes SEASONAL, and `"DPH"` cannot match the lowercased text at all), so
`T1` takes the EDUCATIONAL slot ahead of the older `T4`, and `T4` fills the
last slot from overflow. -/
theorem C3_amended_selection :
    select_articles_for_month marchPool [] 2024 3 = [T2, T3, T1, T4] ∧
    (select_articles_for_month marchPool [] 2024 3).map Article.url =
      ["u2", "u3", "u1", "u4"] ∧
    classify_article T1.title T1.summary = some "EDUCATIONAL" := by decide

/-- C5 counterexample: a persisted state that is valid JSON but not a
mapping to URL lists (here the JSON array `[]`) is returned as parsed, not
replaced by the empty record, contradicting the claim that every state
malformed as a period-to-URLs mapping loads as empty. -/
theorem C5_counterexample :
    decodeHistory (load_history (some (some (JValue.jarr [])))) = none ∧
    load_history (some (some (JValue.jarr []))) ≠ JValue.jobj [] :=
  ⟨rfl, fun hEq => JValue.noConfusion hEq⟩

/-- C5 amended: `load_history` returns the empty record when no persisted
state exists or when `json.loads` fails (corruption at the JSON-syntax level
is recovered locally — the function is total, never an error); but a state
that parses to a JSON value of the wrong shape is returned as parsed. -/
theorem C5_amended_load :
    load_history none = JValue.jobj [] ∧
    load_history (some none) = JValue.jobj [] ∧
    ∀ v, load_history (some (some v)) = v :=
  ⟨rfl, rfl, fun _ => rfl⟩

/-- C6: recording a confirmed selection appends the URLs to the sequence at
the period key (creating it when absent), the result is persisted, order is
preserved and nothing is deduplicated: recording `["u1"]` then `["u2"]`
yields `["u1", "u2"]`, and recording the same URL twice stores it twice. -/
theorem C6_record_used_appends :
    (∀ (h : HistoryRecord) (k : String) (us : List String),
        lookupH (record_used h k us) k = some ((lookupH h k).getD [] ++ us)) ∧
    (∀ (h : HistoryRecord) (k : String) (us : List String),
        load_history (save_history (record_used h k us)) =
          encodeHistory (record_used h k us)) ∧
    lookupH (record_used (record_used [] "2024-03" ["u1"]) "2024-03" ["u2"])
        "2024-03" = some ["u1", "u2"] ∧
    lookupH (record_used (record_used [] "2024-03" ["u1"]) "2024-03" ["u1"])
        "2024-03" = some ["u1", "u1"] :=
  ⟨lookupH_record_used, fun _ _ _ => rfl, by decide, by decide⟩

set_option maxRecDepth 8000 in
set_option maxHeartbeats 4000000 in
/-- C7: for every reference month from January 1990 to December 2029, and
likewise across the non-leap century boundary (January 2097 to December
2104), the period enumeration walks back exactly one calendar month per
element, rolling over year boundaries and unaffected by month lengths (the
day is anchored to 15 before subtracting 30 days per step, so leap and
non-leap Februaries, 30- and 31-day months never skip or repeat a month). -/
theorem C7_months_walk :
    (∀ a : Nat, a < 40 → ∀ b : Nat, b < 12 →
      months_opts (1990 + (a : Int)) (1 + (b : Int)) =
        [(1990 + (a : Int), 1 + (b : Int)),
          prevMonth (1990 + (a : Int), 1 + (b : Int)),
          prevMonth (prevMonth (1990 + (a : Int), 1 + (b : Int)))]) ∧
    (∀ a : Nat, a < 8 → ∀ b : Nat, b < 12 →
      months_opts (2097 + (a : Int)) (1 + (b : Int)) =
        [(2097 + (a : Int), 1 + (b : Int)),
          prevMonth (2097 + (a : Int), 1 + (b : Int)),
          prevMonth (prevMonth (2097 + (a : Int), 1 + (b : Int)))]) := by decide

/-- C7 witness: for reference month January 2025 the enumeration yields
`[(2025, 1), (2024, 12), (2024, 11)]`. -/
theorem C7_witness :
    months_opts 2025 1 = [(2025, 1), (2024, 12), (2024, 11)] := by
  have h := C7_months_walk.1 35 (by decide) 0 (by decide)
  simpa [prevMonth] using h

/-- C8 counterexample: two successive invocations of the feed fetch issue
the identical request URL — nothing varies a cache-defeating parameter. -/
theorem C8_counterexample : fetchRequestUrl 0 = fetchRequestUrl 1 := rfl

/-- C8 amended: every invocation of the feed fetch issues the same constant
request URL `RSS_FEED_URL`; no transport-cache bypass exists at the request
level. -/
theorem C8_constant_request :
    ∀ i j : Nat, fetchRequestUrl i = fetchRequestUrl j ∧
      fetchRequestUrl i = RSS_FEED_URL :=
  fun _ _ => ⟨rfl, rfl⟩

/-- C9: saving a well-formed history record and then loading returns an
equal record — load after save is the identity on records. -/
theorem C9_save_load_roundtrip :
    ∀ h : HistoryRecord,
      decodeHistory (load_history (save_history h)) = some h :=
  fun h => decodeHistory_encodeHistory h

/-- Concrete classifications of the embedding, mirroring the source's
behaviour on the scenario titles (including the dead uppercase keyword). -/
theorem classify_article_concrete :
    classify_article "Tip pro podnikatele" "" = some "ENGAGEMENT" ∧
    classify_article "Jak na DPH" "" = some "EDUCATIONAL" ∧
    classify_article "Premium funkce" "" = some "CONVERSION" ∧
    classify_article "Návod krok za krokem" "" = some "EDUCATIONAL" ∧
    classify_article "Silvestr" "" = some "SEASONAL" ∧
    periodKey 2024 3 = "2024-03" := by decide

end Agwbot

namespace Agwbot

/-! ## C4 helper lemmas: the selection partitions the pool -/

theorem insertDesc_perm (a : Article) (l : List Article) :
    List.Perm (insertDesc a l) (a :: l) := by
  induction l with
  | nil => exact List.Perm.refl _
  | cons b t ih =>
      rw [insertDesc]
      by_cases h : dateLtB a.published b.published
      · simp only [h, if_true]
        exact (ih.cons b).trans (List.Perm.swap a b t)
      · simp only [h, if_false]
        exact List.Perm.refl _

theorem sortDesc_perm (l : List Article) : List.Perm (sortDesc l) l := by
  induction l with
  | nil => exact List.Perm.refl _
  | cons a t ih => exact (insertDesc_perm a (sortDesc t)).trans (ih.cons a)

theorem selVals_setSlot (sel : Slots) (c : String) (a : Article)
    (h : lookupSlot sel c = some none) :
    List.Perm (selVals (setSlot sel c a)) (a :: selVals sel) := by
  induction sel with
  | nil => simp [lookupSlot] at h
  | cons kv t ih =>
      obtain ⟨k, v⟩ := kv
      by_cases hk : k = c
      · subst hk
        simp only [lookupSlot, beq_self_eq_true, if_true, Option.some.injEq] at h
        subst h
        simp [setSlot, selVals]
      · have hbeq : (k == c) = false := beq_false_of_ne hk
        simp only [lookupSlot, hbeq, Bool.false_eq_true, if_false] at h
        simp only [setSlot, hbeq, Bool.false_eq_true, if_false]
        cases v with
        | none => simpa [selVals] using ih h
        | some b =>
            simp only [selVals, List.filterMap_cons] at ih ⊢
            exact ((ih h).cons b).trans (List.Perm.swap a b _)

theorem setSlot_keys (sel : Slots) (c : String) (a : Article) :
    (setSlot sel c a).map Prod.fst = sel.map Prod.fst := by
  induction sel with
  | nil => rfl
  | cons kv t ih =>
      obtain ⟨k, v⟩ := kv
      by_cases hk : (k == c) = true
      · simp [setSlot, hk]
      · simp only [Bool.not_eq_true] at hk
        simp [setSlot, hk, ih]

theorem distribute_perm : ∀ (l : List Article) (sel : Slots) (oth : List Article),
    List.Perm (selVals (distribute l sel oth).1 ++ (distribute l sel oth).2)
      (selVals sel ++ oth ++ l) := by
  intro l
  induction l with
  | nil =>
      intro sel oth
      simp only [distribute, List.append_nil]
      exact List.Perm.refl _
  | cons a t ih =>
      intro sel oth
      rw [distribute]
      cases hls : lookupSlot sel ((classify_article a.title a.summary).getD "OTHER") with
      | none =>
          simpa [List.append_assoc] using ih sel (oth ++ [a])
      | some vo =>
          cases vo with
          | none =>
              refine (ih _ oth).trans ?_
              have h1 := (selVals_setSlot sel _ a hls).append_right (oth ++ t)
              have h2 : List.Perm (a :: (selVals sel ++ (oth ++ t)))
                  (selVals sel ++ (oth ++ (a :: t))) := by
                simpa [List.append_assoc] using
                  (@List.perm_middle Article a (selVals sel ++ oth) t).symm
              simpa [List.append_assoc] using h1.trans h2
          | some b =>
              simpa [List.append_assoc] using ih sel (oth ++ [a])

theorem distribute_keys : ∀ (l : List Article) (sel : Slots) (oth : List Article),
    ((distribute l sel oth).1).map Prod.fst = sel.map Prod.fst := by
  intro l
  induction l with
  | nil => intro sel oth; rfl
  | cons a t ih =>
      intro sel oth
      rw [distribute]
      cases hls : lookupSlot sel ((classify_article a.title a.summary).getD "OTHER") with
      | none => exact ih sel (oth ++ [a])
      | some vo =>
          cases vo with
          | none => rw [ih]; exact setSlot_keys ..
          | some b => exact ih sel (oth ++ [a])

theorem lookupSlot_cons_ne (k : String) (v : Option Article) (t : Slots) (c : String)
    (h : k ≠ c) : lookupSlot ((k, v) :: t) c = lookupSlot t c := by
  simp [lookupSlot, beq_false_of_ne h]

theorem filterMap_getSlot_eq (sel : Slots) (hnd : (sel.map Prod.fst).Nodup) :
    (sel.map Prod.fst).filterMap (fun c => (lookupSlot sel c).getD none) =
      selVals sel := by
  induction sel with
  | nil => rfl
  | cons kv t ih =>
      obtain ⟨k, v⟩ := kv
      simp only [List.map_cons, List.nodup_cons] at hnd
      have hcong : (t.map Prod.fst).filterMap
            (fun c => (lookupSlot ((k, v) :: t) c).getD none) =
          (t.map Prod.fst).filterMap (fun c => (lookupSlot t c).getD none) := by
        apply List.filterMap_congr
        intro c hc
        have hne : k ≠ c := fun hEq => hnd.1 (hEq ▸ hc)
        rw [lookupSlot_cons_ne k v t c hne]
      have hhead : lookupSlot ((k, v) :: t) k = some v := by simp [lookupSlot]
      cases v with
      | none =>
          simp only [List.map_cons, List.filterMap_cons, hhead, Option.getD_some]
          rw [hcong, ih hnd.2]
          rfl
      | some b =>
          simp only [List.map_cons, List.filterMap_cons, hhead, Option.getD_some]
          rw [hcong, ih hnd.2]
          rfl

theorem slotArts_eq_selVals (sel : Slots) (h : sel.map Prod.fst = CATEGORY_ORDER) :
    slotArts sel = selVals sel := by
  have hnd : (sel.map Prod.fst).Nodup := by rw [h]; decide
  rw [slotArts, ← h]
  exact filterMap_getSlot_eq sel hnd

theorem fillFinal_sublist : ∀ (o f : List Article), (fillFinal f o).Sublist (f ++ o) := by
  intro o
  induction o with
  | nil => intro f; simp [fillFinal]
  | cons a t ih =>
      intro f
      rw [fillFinal]
      by_cases h : MAX_ARTICLES ≤ f.length
      · simp only [h, if_true]
        exact List.sublist_append_left f (a :: t)
      · simp only [h, if_false]
        simpa [List.append_assoc] using ih (f ++ [a])

theorem fillFinal_length : ∀ (o f : List Article), f.length ≤ MAX_ARTICLES →
    (fillFinal f o).length = min (f.length + o.length) MAX_ARTICLES := by
  intro o
  induction o with
  | nil =>
      intro f hf
      simp only [fillFinal, List.length_nil, Nat.add_zero]
      omega
  | cons a t ih =>
      intro f hf
      rw [fillFinal]
      by_cases h : MAX_ARTICLES ≤ f.length
      · simp only [h, if_true, List.length_cons]
        simp only [MAX_ARTICLES] at *
        omega
      · simp only [h, if_false]
        have hstep := ih (f ++ [a]) (by simp only [MAX_ARTICLES] at *; simp; omega)
        simp only [List.length_append, List.length_singleton] at hstep
        rw [hstep]
        simp only [List.length_cons]
        omega

/-- C4 amended: for every article list whose URLs are pairwise distinct, the
selection result has no duplicate URL, its length is at most MAX_ARTICLES,
and its length equals min(pool size, MAX_ARTICLES) — shorter than 4 exactly
when fewer than 4 qualifying articles exist, never padded. -/
theorem C4_wellformed (articles : List Article) (history : HistoryRecord)
    (year month : Int) (hnd : (articles.map Article.url).Nodup) :
    ((select_articles_for_month articles history year month).map Article.url).Nodup ∧
    (select_articles_for_month articles history year month).length ≤ MAX_ARTICLES ∧
    (select_articles_for_month articles history year month).length =
      min (poolFor articles history year month).length MAX_ARTICLES := by
  have hkeys : ((distribute (sortDesc (poolFor articles history year month))
      initSlots []).1).map Prod.fst = CATEGORY_ORDER :=
    distribute_keys ..
  have hsa := slotArts_eq_selVals _ hkeys
  have hperm : List.Perm
      (slotArts (distribute (sortDesc (poolFor articles history year month))
          initSlots []).1 ++
        (distribute (sortDesc (poolFor articles history year month)) initSlots []).2)
      (poolFor articles history year month) := by
    rw [hsa]
    refine (distribute_perm ..).trans ?_
    simpa [selVals, initSlots, CATEGORY_ORDER] using
      sortDesc_perm (poolFor articles history year month)
  have hbase_le : (slotArts (distribute (sortDesc (poolFor articles history year month))
      initSlots []).1).length ≤ MAX_ARTICLES := by
    rw [hsa]
    have h1 : (selVals (distribute (sortDesc (poolFor articles history year month))
        initSlots []).1).length ≤ ((distribute (sortDesc (poolFor articles history
        year month)) initSlots []).1).length := List.length_filterMap_le _ _
    have h2 : ((distribute (sortDesc (poolFor articles history year month))
        initSlots []).1).length = 4 := by
      have h3 := congrArg List.length hkeys
      simpa using h3
    simp only [MAX_ARTICLES]
    omega
  have hpool_nd : ((poolFor articles history year month).map Article.url).Nodup := by
    refine List.Nodup.sublist ?_ hnd
    exact (List.filter_sublist articles).map Article.url
  refine ⟨?_, ?_, ?_⟩
  · simp only [select_articles_for_month]
    refine List.Nodup.sublist ?_ ((hperm.symm.map Article.url).nodup hpool_nd)
    refine List.Sublist.map Article.url ?_
    exact (List.take_sublist _ _).trans (fillFinal_sublist ..)
  · simp only [select_articles_for_month]
    simp only [List.length_take]
    omega
  · simp only [select_articles_for_month]
    have hlen := fillFinal_length
      ((distribute (sortDesc (poolFor articles history year month)) initSlots []).2)
      (slotArts (distribute (sortDesc (poolFor articles history year month))
        initSlots []).1) hbase_le
    have hsum : (slotArts (distribute (sortDesc (poolFor articles history year month))
          initSlots []).1).length +
        ((distribute (sortDesc (poolFor articles history year month))
          initSlots []).2).length =
        (poolFor articles history year month).length := by
      have h4 := hperm.length_eq
      simpa using h4
    simp only [List.length_take, hlen, hsum]
    simp only [MAX_ARTICLES] at *
    omega

/-- C4 counterexample: for an article list that repeats a URL the selection
returns that URL twice, so the claim's unconditional no-duplicate guarantee
fails. -/
theorem C4_counterexample :
    ¬ (((select_articles_for_month [T2, T2] [] 2024 3).map Article.url).Nodup) := by
  decide

/-- C4 witness: the amended guarantees evaluated on the concrete March-2024
pool. -/
theorem C4_witness :
    ((select_articles_for_month marchPool [] 2024 3).map Article.url).Nodup ∧
    (select_articles_for_month marchPool [] 2024 3).length ≤ MAX_ARTICLES ∧
    (select_articles_for_month marchPool [] 2024 3).length =
      min (poolFor marchPool [] 2024 3).length MAX_ARTICLES :=
  C4_wellformed marchPool [] 2024 3 (by decide)

/-! ## C10 helper lemmas: heap reads and the loop specifications -/

@[simp] theorem halloc_fst (h : PyHeap) (v : List Article) :
    (halloc h v).1 = h.next := rfl

@[simp] theorem halloc_next (h : PyHeap) (v : List Article) :
    (halloc h v).2.next = h.next + 1 := rfl

@[simp] theorem halloc_hist (h : PyHeap) (v : List Article) :
    (halloc h v).2.hist = h.hist := rfl

@[simp] theorem hwrite_next (h : PyHeap) (r : Nat) (v : List Article) :
    (hwrite h r v).next = h.next := rfl

@[simp] theorem hwrite_hist (h : PyHeap) (r : Nat) (v : List Article) :
    (hwrite h r v).hist = h.hist := rfl

@[simp] theorem hread_halloc_self (h : PyHeap) (v : List Article) :
    hread (halloc h v).2 h.next = v := by simp [hread, halloc]

@[simp] theorem hread_hwrite_self (h : PyHeap) (r : Nat) (v : List Article) :
    hread (hwrite h r v) r = v := by simp [hread, hwrite]

theorem halloc_cells_ne (h : PyHeap) (v : List Article) (r : Nat)
    (hne : r ≠ h.next) : (halloc h v).2.cells r = h.cells r := by
  simp [halloc, hne]

theorem hread_halloc_ne (h : PyHeap) (v : List Article) (r : Nat)
    (hne : r ≠ h.next) : hread (halloc h v).2 r = hread h r := by
  simp [hread, halloc, hne]

theorem hwrite_cells_ne (h : PyHeap) (w : Nat) (v : List Article) (r : Nat)
    (hne : r ≠ w) : (hwrite h w v).cells r = h.cells r := by
  simp [hwrite, hne]

theorem hread_hwrite_ne (h : PyHeap) (w : Nat) (v : List Article) (r : Nat)
    (hne : r ≠ w) : hread (hwrite h w v) r = hread h r := by
  simp [hread, hwrite, hne]

theorem distributePy_spec : ∀ (l : List Article) (sel : Slots) (ro : Nat) (h : PyHeap),
    (distributePy l sel ro h).1 = (distribute l sel (hread h ro)).1 ∧
    hread (distributePy l sel ro h).2 ro = (distribute l sel (hread h ro)).2 ∧
    (∀ r, r ≠ ro → ((distributePy l sel ro h).2).cells r = h.cells r) ∧
    ((distributePy l sel ro h).2).next = h.next ∧
    ((distributePy l sel ro h).2).hist = h.hist := by
  intro l
  induction l with
  | nil => intro sel ro h; exact ⟨rfl, rfl, fun _ _ => rfl, rfl, rfl⟩
  | cons a t ih =>
      intro sel ro h
      cases hls : lookupSlot sel ((classify_article a.title a.summary).getD "OTHER") with
      | none =>
          simp only [distributePy, distribute, hls]
          obtain ⟨i1, i2, i3, i4, i5⟩ := ih sel ro (hwrite h ro (hread h ro ++ [a]))
          refine ⟨?_, ?_, ?_, ?_, ?_⟩
          · rw [i1, hread_hwrite_self]
          · rw [i2, hread_hwrite_self]
          · intro r hr
            rw [i3 r hr, hwrite_cells_ne _ _ _ _ hr]
          · rw [i4, hwrite_next]
          · rw [i5, hwrite_hist]
      | some vo =>
          cases vo with
          | none =>
              simp only [distributePy, distribute, hls]
              exact ih (setSlot sel _ a) ro h
          | some b =>
              simp only [distributePy, distribute, hls]
              obtain ⟨i1, i2, i3, i4, i5⟩ := ih sel ro (hwrite h ro (hread h ro ++ [a]))
              refine ⟨?_, ?_, ?_, ?_, ?_⟩
              · rw [i1, hread_hwrite_self]
              · rw [i2, hread_hwrite_self]
              · intro r hr
                rw [i3 r hr, hwrite_cells_ne _ _ _ _ hr]
              · rw [i4, hwrite_next]
              · rw [i5, hwrite_hist]

theorem fillPy_spec : ∀ (l : List Article) (rf : Nat) (h : PyHeap),
    hread (fillPy l rf h) rf = fillFinal (hread h rf) l ∧
    (∀ r, r ≠ rf → (fillPy l rf h).cells r = h.cells r) ∧
    (fillPy l rf h).next = h.next ∧ (fillPy l rf h).hist = h.hist := by
  intro l
  induction l with
  | nil => intro rf h; exact ⟨rfl, fun _ _ => rfl, rfl, rfl⟩
  | cons a t ih =>
      intro rf h
      by_cases hc : MAX_ARTICLES ≤ (hread h rf).length
      · simp [fillPy, fillFinal, hc]
      · simp only [fillPy, fillFinal, hc, if_false]
        obtain ⟨i1, i2, i3, i4⟩ := ih rf (hwrite h rf (hread h rf ++ [a]))
        refine ⟨?_, ?_, ?_, ?_⟩
        · rw [i1, hread_hwrite_self]
        · intro r hr
          rw [i2 r hr, hwrite_cells_ne _ _ _ _ hr]
        · rw [i3, hwrite_next]
        · rw [i4, hwrite_hist]

/-- C10: the heap-threaded selection neither mutates the articles object
(nor any other pre-existing object) nor the history dict, and its result is
the pure `select_articles_for_month` of its inputs; history changes only in
the separate confirm step (`record_used`). -/
theorem C10_no_mutation (h0 : PyHeap) (ra : Nat) (year month : Int) :
    (∀ r, r < h0.next → hread (selectPy h0 ra year month).2 r = hread h0 r) ∧
    (selectPy h0 ra year month).2.hist = h0.hist ∧
    (selectPy h0 ra year month).1 =
      select_articles_for_month (hread h0 ra) h0.hist year month := by
  simp only [selectPy, halloc_fst]
  set pool0 := (hread h0 ra).filter
      (monthFilter year month (usedFor h0.hist year month)) with hpool
  set h1 := (halloc h0 pool0).2 with hh1
  set h2 := hwrite h1 h0.next (sortDesc (hread h1 h0.next)) with hh2
  set h3 := (halloc h2 ([] : List Article)).2 with hh3
  obtain ⟨d1, d2, d3, d4, d5⟩ := distributePy_spec (hread h3 h0.next) initSlots h2.next h3
  set h4 := (distributePy (hread h3 h0.next) initSlots h2.next h3).2 with hh4
  set sel1 := (distributePy (hread h3 h0.next) initSlots h2.next h3).1 with hsel
  set h5 := (halloc h4 (slotArts sel1)).2 with hh5
  obtain ⟨f1, f2, f3, f4⟩ := fillPy_spec (hread h5 h2.next) h4.next h5
  set h6 := fillPy (hread h5 h2.next) h4.next h5 with hh6
  have h1next : h1.next = h0.next + 1 := by rw [hh1]; simp
  have h2next : h2.next = h0.next + 1 := by rw [hh2, hwrite_next, h1next]
  have h3next : h3.next = h0.next + 2 := by rw [hh3, halloc_next, h2next]
  have h4next : h4.next = h0.next + 2 := by rw [d4, h3next]
  -- reads of the pipeline stages
  have hr1 : hread h1 h0.next = pool0 := by rw [hh1]; exact hread_halloc_self h0 pool0
  have hr2 : hread h2 h0.next = sortDesc pool0 := by
    rw [hh2, hr1, hread_hwrite_self]
  have hr3p : hread h3 h0.next = sortDesc pool0 := by
    rw [hh3, hread_halloc_ne _ _ _ (by omega), hr2]
  have hr3o : hread h3 h2.next = [] := by
    rw [hh3]; exact hread_halloc_self h2 []
  have hsel1 : sel1 = (distribute (sortDesc pool0) initSlots []).1 := by
    rw [d1, hr3o, hr3p]
  have hr4o : hread h4 h2.next = (distribute (sortDesc pool0) initSlots []).2 := by
    rw [d2, hr3o, hr3p]
  have hr5f : hread h5 h4.next = slotArts sel1 := by
    rw [hh5]; exact hread_halloc_self h4 (slotArts sel1)
  have hr5o : hread h5 h2.next = (distribute (sortDesc pool0) initSlots []).2 := by
    rw [hh5, hread_halloc_ne _ _ _ (by omega), hr4o]
  have hr6f : hread h6 h4.next = fillFinal (slotArts sel1)
      ((distribute (sortDesc pool0) initSlots []).2) := by
    rw [f1, hr5f, hr5o]
  refine ⟨?_, ?_, ?_⟩
  · intro r hrlt
    have hc6 : h6.cells r = h5.cells r := f2 r (by omega)
    have hc5 : h5.cells r = h4.cells r := by
      rw [hh5]; exact halloc_cells_ne _ _ _ (by omega)
    have hc4 : h4.cells r = h3.cells r := d3 r (by omega)
    have hc3 : h3.cells r = h2.cells r := by
      rw [hh3]; exact halloc_cells_ne _ _ _ (by omega)
    have hc2 : h2.cells r = h1.cells r := by
      rw [hh2]; exact hwrite_cells_ne _ _ _ _ (by omega)
    have hc1 : h1.cells r = h0.cells r := by
      rw [hh1]; exact halloc_cells_ne _ _ _ (by omega)
    rw [hread, hread, hc6, hc5, hc4, hc3, hc2, hc1]
  · have g5 : h5.hist = h4.hist := by rw [hh5]; simp
    have g4 : h4.hist = h3.hist := d5
    have g3 : h3.hist = h2.hist := by rw [hh3]; simp
    have g2 : h2.hist = h1.hist := by rw [hh2]; simp
    have g1 : h1.hist = h0.hist := by rw [hh1]; simp
    rw [f4, g5, g4, g3, g2, g1]
  · rw [hr6f, hsel1]
    rfl

/-- C10 witness: the frame theorem evaluated on a one-cell heap holding the
March-2024 pool. -/
theorem C10_witness :
    hread (selectPy heap0 0 2024 3).2 0 = hread heap0 0 ∧
    (selectPy heap0 0 2024 3).2.hist = histMarch ∧
    (selectPy heap0 0 2024 3).1 =
      select_articles_for_month marchPool histMarch 2024 3 := by
  have h := C10_no_mutation heap0 0 2024 3
  exact ⟨h.1 0 (by decide), h.2.1, h.2.2⟩

end Agwbot
